import Mathlib

/-!
Verification of the Mercatus repository: a shallow embedding, in Lean 4, of
the parts of the code base that the specification talks about.

The repository splits into two layers.

The web frontend is real TypeScript source: the locale middleware
(`middleware.ts`), the `useTeams` SWR fetcher (`useTeams.ts`) and the
`ExpertCard` component (`ExpertCard.tsx`).  These are embedded directly from
the source files.

The backend ("BlackBoard" task orchestration) is described only by design
documents and the specification; no backend source file is present in the
repository.  Definitions for it are therefore modelled from the spec, as
noted in their doc comments: the task state machine, the multi-dimensional
scheduler, the expert-capacity bookkeeping, the retry/escalation policy, the
default team configuration and dependency-cycle detection.
-/

namespace Mercatus

/-! ## Locale middleware (`middleware.ts`) -/

/-- Pathname of an incoming request, as a list of characters. -/
abbrev Pathname := List Char

/-- Locale list imported by the middleware from `src/i18n/config`.
Modelled from the spec: the `i18n/config` module itself is absent from the
sources; the `LanguageSwitcher` component enumerates the application
languages as `zh` and `en`, which is what the middleware's legacy-locale
regex is built from. -/
def locales : List (List Char) := [['z', 'h'], ['e', 'n']]

/-- Test whether the lowercased pair of characters spells one of the legacy
locales, as the case-insensitive regex `^/(zh|en)(/|$)` does. -/
def isLocalePair (c1 c2 : Char) : Bool :=
  locales.contains [c1.toLower, c2.toLower]

/-- Result of the wrapper middleware: pass the request through
(`NextResponse.next()`), issue a 307 redirect to a new pathname, or delegate
to the next-intl middleware. -/
inductive MwResult where
  | next
  | redirect (newPath : Pathname)
  | intl
  deriving DecidableEq, Repr

/-- Embedding of `pathname.replace(prefixRegex, '/')` guarded by
`prefixRegex.test(pathname)` for the regex `^/(zh|en)(/|$)` with the `i`
flag: `some` of the stripped pathname when the regex matches, `none`
otherwise.  The matched text is the slash, the locale, and the following
slash when one is present; it is replaced by a single slash. -/
def stripLocale : Pathname → Option Pathname
  | a :: c1 :: c2 :: rest =>
    if a = '/' then
      if isLocalePair c1 c2 then
        match rest with
        | [] => some ['/']
        | b :: r => if b = '/' then some ('/' :: r) else none
      else none
    else none
  | _ => none

/-- The wrapper `middleware` function from `middleware.ts`: the root path is
passed through untouched; a pathname matched by the legacy locale-prefix
regex is answered with a 307 redirect to the stripped path (re-rooted with a
slash if needed, as in the source); every other pathname is delegated to the
intl middleware. -/
def middleware (pathname : Pathname) : MwResult :=
  if pathname = ['/'] then .next
  else
    match stripLocale pathname with
    | some newPath =>
        .redirect (if newPath.head? = some '/' then newPath else '/' :: newPath)
    | none => .intl

/-- The claim's reading of a legacy locale start: the pathname begins with
the two-letter locale `zh` or `en` (case-insensitively) right after the
leading slash, followed by a slash or by the end of the path. -/
def LegacyLocaleStart (p : Pathname) : Prop :=
  ∃ c1 c2 rest, p = '/' :: c1 :: c2 :: rest ∧
    [c1.toLower, c2.toLower] ∈ [['z', 'h'], ['e', 'n']] ∧
    (rest = [] ∨ ∃ r, rest = '/' :: r)

/-! ## The `useTeams` fetcher (`useTeams.ts`) -/

/-- JSON values, the results of a successful `res.json()`. -/
inductive JVal where
  | null
  | bool (b : Bool)
  | num (n : Int)
  | str (s : String)
  | arr (xs : List JVal)
  | obj (fields : List (String × JVal))
  deriving Repr

/-- Body of an HTTP response: either text that parses as JSON (so
`res.json()` resolves with the given value) or text that does not (so
`res.json()` rejects and `res.text()` yields the raw string). -/
inductive Body where
  | jsonBody (v : JVal)
  | textBody (s : String)
  deriving Repr

/-- An HTTP response as observed by the fetcher: its status code and its
body. -/
structure Response where
  status : Nat
  body : Body
  deriving Repr

/-- Embedding of `res.ok` per the fetch specification: the status is in the
2xx range. -/
def Response.ok (r : Response) : Bool := 200 ≤ r.status && r.status < 300

/-- The `ApiError` built by the fetcher: the generic message, the attached
`info` payload and the HTTP status. -/
structure ApiError where
  message : String
  info : JVal
  status : Nat
  deriving Repr

/-- Outcome of the fetcher promise: resolve with a JSON value, reject with
an `ApiError`, or reject with the JSON-parse error raised by `res.json()` on
an ok response whose body is not JSON. -/
inductive FetchOutcome where
  | resolved (v : JVal)
  | apiError (e : ApiError)
  | parseError
  deriving Repr

/-- The `fetcher` from `useTeams.ts`: a 404 resolves to the empty list;
any other non-ok response throws an `ApiError` carrying the parsed JSON body
as `info` (or a message object wrapping the body text when the body is not
JSON) and the HTTP status; an ok response resolves to its parsed JSON
body. -/
def fetcher (res : Response) : FetchOutcome :=
  if res.status = 404 then .resolved (.arr [])
  else if !res.ok then
    .apiError
      { message := "An error occurred while fetching the data.",
        info :=
          match res.body with
          | .jsonBody v => v
          | .textBody s => .obj [("message", .str s)],
        status := res.status }
  else
    match res.body with
    | .jsonBody v => .resolved v
    | .textBody _ => .parseError

/-! ## The `Expert` interface (`ExpertCard.tsx`) -/

/-- Status union type of the `Expert` interface in `ExpertCard.tsx`:
`'active' | 'idle' | 'busy' | 'error' | 'offline'`. -/
inductive ExpertStatus where
  | active
  | idle
  | busy
  | error
  | offline
  deriving DecidableEq, Repr

/-- Badge variants used by the expert card for the status badge. -/
inductive BadgeVariant where
  | success
  | warning
  | info
  | danger
  | defaultVariant
  deriving DecidableEq, Repr

/-- The `currentTask` object of the `Expert` interface. -/
structure CurrentTask where
  id : String
  title : String
  progress : Rat
  deriving Repr

/-- The `performance` object of the `Expert` interface. -/
structure ExpertPerformance where
  successRate : Rat
  totalTasks : Nat
  completedTasks : Nat
  averageCompletionTime : Rat
  lastActive : String
  deriving Repr

/-- The `Expert` interface from `ExpertCard.tsx`, the expert shape exposed
by the web frontend. -/
structure Expert where
  id : String
  name : String
  type : String
  description : String
  status : ExpertStatus
  currentTask : Option CurrentTask
  performance : ExpertPerformance
  capabilities : List String
  deriving Repr

/-- The card's `getStatusColor`, restricted to the declared status union
(the source's `default` arm is unreachable on these values). -/
def getStatusColor : ExpertStatus → BadgeVariant
  | .active => .success
  | .busy => .warning
  | .idle => .info
  | .error => .danger
  | .offline => .defaultVariant

/-- The card's `getStatusText`, restricted to the declared status union. -/
def getStatusText : ExpertStatus → String
  | .active => "活跃"
  | .busy => "忙碌"
  | .idle => "空闲"
  | .error => "错误"
  | .offline => "离线"

/-- A concrete, well-typed frontend expert whose status is `idle`: a value
the `Expert` interface admits and both card helpers handle. -/
def idleExpert : Expert :=
  { id := "expert-1"
    name := "Monica"
    type := "writer"
    description := "content expert"
    status := .idle
    currentTask := none
    performance :=
      { successRate := 95
        totalTasks := 40
        completedTasks := 38
        averageCompletionTime := 30
        lastActive := "2025-01-01T00:00:00Z" }
    capabilities := ["social_media"] }

/-! ## Backend data model (modelled from the spec) -/

/-- Expert roles.  Modelled from the spec: the backend type system
(`app/types/blackboard.py`) is absent from the sources; the spec fixes the
enumeration planner, executor, evaluator. -/
inductive ExpertRole where
  | planner
  | executor
  | evaluator
  deriving DecidableEq, Repr, Fintype

/-- Backend expert-instance status.  Modelled from the spec: the backend
`ExpertInstance` model is absent from the sources; the spec and the design
document give the three values active, busy, offline. -/
inductive ExpertIStatus where
  | active
  | busy
  | offline
  deriving DecidableEq, Repr

/-- Task statuses.  Modelled from the spec: the backend task state machine
is absent from the sources; the spec lists these six states. -/
inductive TaskStatus where
  | pending
  | assigned
  | inProgress
  | completed
  | failed
  | cancelled
  deriving DecidableEq, Repr

/-- Task priorities, ordered urgent > high > medium > low.  Modelled from
the spec. -/
inductive TaskPriority where
  | urgent
  | high
  | medium
  | low
  deriving DecidableEq, Repr

/-- Backend expert instance.  Modelled from the spec: the backend
`ExpertInstance` model is absent from the sources.  Fields follow the spec's
data model; `successRate` is the historical-performance metric the scheduler
reads, and timestamps are naturals. -/
structure ExpertInstance where
  instanceId : Nat
  expertRole : ExpertRole
  instanceName : String
  status : ExpertIStatus
  maxConcurrentTasks : Nat
  currentTaskCount : Nat
  specializations : List String
  successRate : Rat
  createdAt : Nat
  deriving DecidableEq, Repr

/-- A dependency reference of a task: the referenced task identifier and
whether the dependency is hard (blocking) or soft (informational).
Modelled from the spec. -/
structure TaskDependency where
  taskId : Nat
  hard : Bool
  deriving DecidableEq, Repr

/-- Backend blackboard task.  Modelled from the spec: the backend
`BlackboardTask` model is absent from the sources.  `tags` collects the
opaque platform/region/content-type routing tags; `assignedTo` is the
optional expert-instance identifier of the current assignment. -/
structure Task where
  taskId : Nat
  title : String
  description : String
  goal : String
  status : TaskStatus
  priority : TaskPriority
  requiredRole : ExpertRole
  assignedTo : Option Nat
  tags : List String
  dependencies : List TaskDependency
  retryCount : Nat
  maxRetries : Nat
  failureReason : Option String
  escalated : Bool
  createdAt : Nat
  deriving DecidableEq, Repr

/-- Team configuration with per-role instance caps.  Modelled from the
spec: the backend `TeamConfiguration` model is absent from the sources. -/
structure TeamConfiguration where
  maxPlannerInstances : Nat
  maxExecutorInstances : Nat
  maxEvaluatorInstances : Nat
  autoScalingEnabled : Bool
  taskQueueLimit : Nat
  concurrentTaskLimit : Nat
  deriving DecidableEq, Repr

/-- Default team configuration.  Modelled from the spec: planner fixed at
1, executor at most 3, evaluator at most 2 by default. -/
def defaultTeamConfiguration : TeamConfiguration :=
  { maxPlannerInstances := 1
    maxExecutorInstances := 3
    maxEvaluatorInstances := 2
    autoScalingEnabled := true
    taskQueueLimit := 100
    concurrentTaskLimit := 20 }

/-- Error taxonomy of the blackboard.  Modelled from the spec's error
handling design. -/
inductive BlackboardError where
  | validationError
  | invalidTransitionError
  | noAvailableExpertError
  | cyclicDependencyError
  | invalidWorkflowDefinitionError
  | capacityExceededError
  | staleStateError
  | taskNotFoundError
  deriving DecidableEq, Repr

/-! ## Task state machine (modelled from the spec) -/

/-- How a status change was requested: an ordinary transition, the explicit
needs-revision transition, or a reschedule of a failed task.  Modelled from
the spec, which singles the latter two out as distinguished transitions. -/
inductive TransitionKind where
  | normal
  | needsRevision
  | reschedule
  deriving DecidableEq, Repr

/-- Decision procedure for the task state machine.  Modelled from the spec:
pending to assigned to in-progress to completed or failed; in-progress back
to pending only via needs-revision, bounded by the retry count; failed to
assigned only via reschedule; any state except the terminal completed and
cancelled may move to cancelled. -/
def transitionAllowed (t : Task) (newStatus : TaskStatus) (via : TransitionKind) : Bool :=
  match via with
  | .needsRevision =>
      t.status == .inProgress && newStatus == .pending && t.retryCount < t.maxRetries
  | .reschedule => t.status == .failed && newStatus == .assigned
  | .normal =>
      match t.status, newStatus with
      | .pending, .assigned => true
      | .assigned, .inProgress => true
      | .inProgress, .completed => true
      | .inProgress, .failed => true
      | .pending, .cancelled => true
      | .assigned, .cancelled => true
      | .inProgress, .cancelled => true
      | .failed, .cancelled => true
      | _, _ => false

/-- The `update_task_status` facade operation.  Modelled from the spec: it
enforces the state machine, failing with `InvalidTransitionError` on an
illegal transition and leaving the task untouched; a reschedule increments
the retry count. -/
def update_task_status (t : Task) (newStatus : TaskStatus) (via : TransitionKind) :
    Except BlackboardError Task :=
  if transitionAllowed t newStatus via then
    .ok { t with
          status := newStatus
          retryCount := if via == .reschedule then t.retryCount + 1 else t.retryCount }
  else .error .invalidTransitionError

/-- The declared state machine of the spec, as a relation: which status
changes of task `t` are edges, and via which transition kind. -/
inductive AllowedTransition (t : Task) : TaskStatus → TransitionKind → Prop where
  | assign : t.status = .pending → AllowedTransition t .assigned .normal
  | start : t.status = .assigned → AllowedTransition t .inProgress .normal
  | complete : t.status = .inProgress → AllowedTransition t .completed .normal
  | fail : t.status = .inProgress → AllowedTransition t .failed .normal
  | revise : t.status = .inProgress → t.retryCount < t.maxRetries →
      AllowedTransition t .pending .needsRevision
  | reschedule : t.status = .failed → AllowedTransition t .assigned .reschedule
  | cancel : t.status ≠ .completed → t.status ≠ .cancelled →
      AllowedTransition t .cancelled .normal

/-! ## Scheduler (modelled from the spec) -/

/-- Numeric priority mapped into the unit interval for scoring.  Modelled
from the spec, which orders urgent > high > medium > low. -/
def priorityWeight : TaskPriority → Rat
  | .urgent => 1
  | .high => 3 / 4
  | .medium => 1 / 2
  | .low => 1 / 4

/-- Availability signal of an expert: one minus current over maximum
concurrent tasks.  Modelled from the spec. -/
def availability (e : ExpertInstance) : Rat :=
  1 - (e.currentTaskCount : Rat) / (e.maxConcurrentTasks : Rat)

/-- Specialization-match signal: the fraction of the task's routing tags
present in the expert's specialization set (taken to be 1 when the task
declares no tags).  Modelled from the spec. -/
def specializationMatch (e : ExpertInstance) (t : Task) : Rat :=
  if t.tags = [] then 1
  else
    ((t.tags.filter (fun tag => e.specializations.contains tag)).length : Rat)
      / (t.tags.length : Rat)

/-- The scheduler's weighted score: availability 0.4, specialization 0.3,
priority 0.2, historical performance 0.1.  Modelled from the spec's default
weights. -/
def score (e : ExpertInstance) (t : Task) : Rat :=
  (2 / 5) * availability e + (3 / 10) * specializationMatch e t
    + (1 / 5) * priorityWeight t.priority + (1 / 10) * e.successRate

/-- Candidate test of the scheduler: role match, active status, and strictly
positive headroom.  Modelled from the spec. -/
def isCandidate (t : Task) (e : ExpertInstance) : Bool :=
  e.expertRole == t.requiredRole && e.status == .active
    && e.currentTaskCount < e.maxConcurrentTasks

/-- Candidate set of a task over a pool of experts.  Modelled from the
spec. -/
def candidates (t : Task) (experts : List ExpertInstance) : List ExpertInstance :=
  experts.filter (isCandidate t)

/-- Sort key of the scheduler: score (to maximise), then current load and
creation time (to minimise on ties). -/
def schedKey (t : Task) (e : ExpertInstance) : Rat × Nat × Nat :=
  (score e t, e.currentTaskCount, e.createdAt)

/-- Strict scheduling preference on sort keys: strictly higher score, or
equal score and strictly lower load, or equal score and load and strictly
earlier creation. -/
def keyBetter (j k : Rat × Nat × Nat) : Bool :=
  if k.1 < j.1 then true
  else if j.1 = k.1 then
    if j.2.1 < k.2.1 then true
    else if j.2.1 = k.2.1 then decide (j.2.2 < k.2.2)
    else false
  else false

/-- Strict scheduling preference between experts for a task.  Modelled from
the spec's selection rule: maximum score, ties broken by lowest current
load, then earliest instance creation. -/
def better (t : Task) (a b : ExpertInstance) : Bool :=
  keyBetter (schedKey t a) (schedKey t b)

/-- Selection loop of the scheduler: fold over the pool keeping the
preferred expert, the earlier-listed one on an exact tie. -/
def pickFrom (t : Task) (b : ExpertInstance) : List ExpertInstance → ExpertInstance
  | [] => b
  | e :: rest => pickFrom t (if better t e b then e else b) rest

/-- Best expert of a pool for a task, if the pool is nonempty. -/
def pickBest (t : Task) : List ExpertInstance → Option ExpertInstance
  | [] => none
  | e :: rest => some (pickFrom t e rest)

/-- The scheduler's `assign`.  Modelled from the spec: filter the pool to
the candidate set, select the preferred candidate, and fail with
`NoAvailableExpertError` when the candidate set is empty. -/
def assign (t : Task) (experts : List ExpertInstance) :
    Except BlackboardError ExpertInstance :=
  match pickBest t (candidates t experts) with
  | some e => .ok e
  | none => .error .noAvailableExpertError

/-! ## Blackboard state and operations (modelled from the spec) -/

/-- Per-team blackboard state: the team's expert instances and tasks.
Modelled from the spec: the backend blackboard is absent from the
sources. -/
structure BBState where
  experts : List ExpertInstance
  tasks : List Task
  deriving Repr

/-- Add one to an expert's current task count. -/
def bumpLoad (e : ExpertInstance) : ExpertInstance :=
  { e with currentTaskCount := e.currentTaskCount + 1 }

/-- Take one from an expert's current task count. -/
def dropLoad (e : ExpertInstance) : ExpertInstance :=
  { e with currentTaskCount := e.currentTaskCount - 1 }

/-- Record a task as assigned to the given expert instance. -/
def markAssigned (eid : Nat) (u : Task) : Task :=
  { u with status := .assigned, assignedTo := some eid }

/-- Record a task as completed. -/
def markCompleted (u : Task) : Task :=
  { u with status := .completed }

/-- Increment the current task count of the expert with the given
identifier, the blackboard's assignment-path bookkeeping. -/
def incExpert (es : List ExpertInstance) (eid : Nat) : List ExpertInstance :=
  es.map fun e => if e.instanceId = eid then bumpLoad e else e

/-- Decrement the current task count of the expert with the given
identifier, the blackboard's completion-path bookkeeping. -/
def decExpert (es : List ExpertInstance) (eid : Nat) : List ExpertInstance :=
  es.map fun e => if e.instanceId = eid then dropLoad e else e

/-- The facade's `auto_assign_task`.  Modelled from the spec: it delegates
to the scheduler; on success it moves the pending task to assigned, records
the assignment and increments the chosen expert's task count; it changes
nothing when the task is missing, not pending, or no expert is available. -/
def auto_assign_task (s : BBState) (id : Nat) : BBState :=
  match s.tasks.find? (fun t => t.taskId == id) with
  | none => s
  | some t =>
    if t.status = .pending then
      match assign t s.experts with
      | .ok e =>
          { experts := incExpert s.experts e.instanceId
            tasks := s.tasks.map fun u =>
              if u.taskId = id then markAssigned e.instanceId u else u }
      | .error _ => s
    else s

/-- The facade's completion path.  Modelled from the spec: an assigned or
in-progress task becomes completed and its expert's task count is
decremented; anything else changes nothing. -/
def complete_task (s : BBState) (id : Nat) : BBState :=
  match s.tasks.find? (fun t => t.taskId == id) with
  | none => s
  | some t =>
    if t.status = .assigned ∨ t.status = .inProgress then
      { experts :=
          match t.assignedTo with
          | some eid => decExpert s.experts eid
          | none => s.experts
        tasks := s.tasks.map fun u =>
          if u.taskId = id then markCompleted u else u }
    else s

/-- An operation on the blackboard state: an assignment or a completion. -/
inductive BBOp where
  | assignOp (taskId : Nat)
  | completeOp (taskId : Nat)
  deriving DecidableEq, Repr

/-- Apply one operation to the blackboard state. -/
def applyOp (s : BBState) : BBOp → BBState
  | .assignOp id => auto_assign_task s id
  | .completeOp id => complete_task s id

/-- Run a sequence of operations on the blackboard state. -/
def runOps (s : BBState) (ops : List BBOp) : BBState := ops.foldl applyOp s

/-- Well-formedness of an expert pool: instance identifiers are distinct and
every instance respects its concurrency cap. -/
def ExpertsWF (es : List ExpertInstance) : Prop :=
  (es.map (·.instanceId)).Nodup ∧
    ∀ e ∈ es, e.currentTaskCount ≤ e.maxConcurrentTasks

/-- Occupancy contribution of a task to role `r`: one exactly when the task
requires role `r` and holds an expert slot (assigned or in progress). -/
def taskActiveFlag (r : ExpertRole) (u : Task) : Nat :=
  if u.requiredRole == r && (u.status == TaskStatus.assigned
      || u.status == TaskStatus.inProgress) then 1 else 0

/-- Assigned-count contribution of a task to role `r`. -/
def taskAssignedFlag (r : ExpertRole) (u : Task) : Nat :=
  if u.requiredRole == r && u.status == TaskStatus.assigned then 1 else 0

/-- Load contribution of an expert to role `r`. -/
def expertLoadOf (r : ExpertRole) (y : ExpertInstance) : Nat :=
  if y.expertRole == r then y.currentTaskCount else 0

/-- Capacity contribution of an expert to role `r`. -/
def expertCapOf (r : ExpertRole) (y : ExpertInstance) : Nat :=
  if y.expertRole == r then y.maxConcurrentTasks else 0

/-- Number of role-`r` tasks currently occupying an expert slot (assigned or
in progress). -/
def activeRole (s : BBState) (r : ExpertRole) : Nat :=
  (s.tasks.map (taskActiveFlag r)).sum

/-- Number of role-`r` tasks currently in the assigned status. -/
def assignedRole (s : BBState) (r : ExpertRole) : Nat :=
  (s.tasks.map (taskAssignedFlag r)).sum

/-- Total current load of the role-`r` experts of a pool. -/
def loadRole (es : List ExpertInstance) (r : ExpertRole) : Nat :=
  (es.map (expertLoadOf r)).sum

/-- Total concurrency capacity of the role-`r` experts of a pool. -/
def capacityRole (es : List ExpertInstance) (r : ExpertRole) : Nat :=
  (es.map (expertCapOf r)).sum

/-- Validity of recorded assignments: whenever a task records an assigned
expert identifier, every pool expert carrying that identifier has the task's
required role. -/
def AssignValid (s : BBState) : Prop :=
  ∀ t ∈ s.tasks, ∀ eid, t.assignedTo = some eid →
    ∀ e ∈ s.experts, e.instanceId = eid → e.expertRole = t.requiredRole

/-- Full system well-formedness: a well-formed expert pool, distinct task
identifiers, valid recorded assignments, and per-role occupancy accounted
for by expert load. -/
def SysWF (s : BBState) : Prop :=
  ExpertsWF s.experts ∧ (s.tasks.map (·.taskId)).Nodup ∧ AssignValid s ∧
    ∀ r, activeRole s r ≤ loadRole s.experts r

/-! ## Failure handling and retries (modelled from the spec) -/

/-- Failure handling of the workflow engine.  Modelled from the spec: a
task-level execution failure records the failure reason and moves the task
to failed; within the retry bound the task is rescheduled through
`update_task_status` (failed to assigned, incrementing the retry count);
beyond the bound it stays terminally failed and an escalation is recorded. -/
def handleFailure (t : Task) (reason : String) : Task :=
  let tf := { t with status := TaskStatus.failed, failureReason := some reason }
  if tf.retryCount < tf.maxRetries then
    match update_task_status tf .assigned .reschedule with
    | .ok t2 => t2
    | .error _ => tf
  else { tf with escalated := true }

/-- Iterated execution failures: the task fails `n` times in a row, each
failure routed through the failure-handling path. -/
def failTimes (reason : String) : Nat → Task → Task
  | 0, t => t
  | n + 1, t => failTimes reason n (handleFailure t reason)

/-! ## Dependency-cycle detection (modelled from the spec) -/

/-- Identifiers of the hard dependencies among a task's dependency
references; soft dependencies never block and are ignored here.  Modelled
from the spec. -/
def hardDepIds (deps : List TaskDependency) : List Nat :=
  (deps.filter (·.hard)).map (·.taskId)

/-- Does the task still have a hard dependency on some task of the pool? -/
def hasHardDepIn (g : List Task) (t : Task) : Bool :=
  (hardDepIds t.dependencies).any fun d => g.any fun u => u.taskId == d

/-- Elimination loop of cycle detection: repeatedly discard tasks whose hard
dependencies all point outside the remaining pool; only tasks feeding a
dependency cycle survive every round. -/
def shrinkCycle : Nat → List Task → List Task
  | 0, g => g
  | k + 1, g => shrinkCycle k (g.filter (hasHardDepIn g))

/-- The dependency engine's `detect_cycle` over a creation batch.  Modelled
from the spec: it decides whether the batch's hard-dependency graph contains
a cycle. -/
def detect_cycle (batch : List Task) : Bool :=
  !(shrinkCycle batch.length batch).isEmpty

/-- All-or-nothing batch task creation.  Modelled from the spec: a batch
whose hard dependencies are cyclic is rejected at creation time with
`CyclicDependencyError` and the store is left untouched; otherwise all tasks
of the batch are persisted. -/
def create_tasks (store batch : List Task) :
    List Task × Option BlackboardError :=
  if detect_cycle batch then (store, some .cyclicDependencyError)
  else (store ++ batch, none)

/-- A hard-dependency edge inside a creation batch: both tasks belong to the
batch and the second is a hard dependency of the first. -/
def HardEdge (batch : List Task) (a b : Task) : Prop :=
  a ∈ batch ∧ b ∈ batch ∧ b.taskId ∈ hardDepIds a.dependencies

instance (batch : List Task) (a b : Task) : Decidable (HardEdge batch a b) := by
  unfold HardEdge
  infer_instance

/-- A hard-dependency cycle inside a creation batch: a nonempty list of
tasks each of which hard-depends on the cyclically next one. -/
def IsDepCycle (batch : List Task) (c : List Task) : Prop :=
  0 < c.length ∧ ∀ i : Fin c.length,
    HardEdge batch (c.get i) (c.get ⟨(i.val + 1) % c.length, Nat.mod_lt _ i.pos⟩)

/-! ## Lemmas about the locale middleware -/

/-- Unfolding of the locale-pair test to plain list membership. -/
lemma isLocalePair_iff (c1 c2 : Char) :
    isLocalePair c1 c2 = true ↔
      [c1.toLower, c2.toLower] ∈ [['z', 'h'], ['e', 'n']] := by
  simp [isLocalePair, locales, List.elem_iff]

/-- The regex matches exactly the pathnames the claim describes. -/
lemma stripLocale_isSome_iff (p : Pathname) :
    (stripLocale p).isSome ↔ LegacyLocaleStart p := by
  constructor
  · intro h
    match p with
    | [] => simp [stripLocale] at h
    | [a] => simp [stripLocale] at h
    | [a, b] => simp [stripLocale] at h
    | a :: c1 :: c2 :: rest =>
      by_cases ha : a = '/'
      · by_cases hl : isLocalePair c1 c2
        · subst ha
          refine ⟨c1, c2, rest, rfl, (isLocalePair_iff c1 c2).1 hl, ?_⟩
          match rest with
          | [] => exact Or.inl rfl
          | b :: r =>
            by_cases hb : b = '/'
            · exact Or.inr ⟨r, by rw [hb]⟩
            · simp [stripLocale, hl, hb] at h
        · simp [stripLocale, ha, hl] at h
      · simp [stripLocale, ha] at h
  · rintro ⟨c1, c2, rest, heq, hmem, hrest⟩
    subst heq
    have hl : isLocalePair c1 c2 = true := (isLocalePair_iff c1 c2).2 hmem
    rcases hrest with h0 | ⟨r, hr⟩
    · subst h0; simp [stripLocale, hl]
    · subst hr; simp [stripLocale, hl]

/-- The stripped pathname the middleware redirects to, explicitly. -/
lemma stripLocale_eq (c1 c2 : Char) (h : isLocalePair c1 c2 = true) :
    stripLocale ['/', c1, c2] = some ['/'] ∧
      ∀ r, stripLocale ('/' :: c1 :: c2 :: '/' :: r) = some ('/' :: r) := by
  constructor
  · simp [stripLocale, h]
  · intro r; simp [stripLocale, h]

/-- C9: the middleware 307-redirects to the prefix-stripped path exactly
when the pathname begins with a legacy locale prefix (slash, then `zh` or
`en` case-insensitively, then a slash or the end of the path); the root path
is always passed through unchanged; every other path is delegated to the
intl middleware. -/
theorem middleware_locale_spec (p : Pathname) :
    middleware ['/'] = MwResult.next ∧
    ((∃ q, middleware p = MwResult.redirect q) ↔ LegacyLocaleStart p) ∧
    (∀ c1 c2, isLocalePair c1 c2 = true →
      middleware ['/', c1, c2] = MwResult.redirect ['/'] ∧
      ∀ r, middleware ('/' :: c1 :: c2 :: '/' :: r) = MwResult.redirect ('/' :: r)) ∧
    (p ≠ ['/'] → ¬LegacyLocaleStart p → middleware p = MwResult.intl) := by
  refine ⟨by simp [middleware], ?_, ?_, ?_⟩
  · constructor
    · rintro ⟨q, hq⟩
      by_cases hroot : p = ['/']
      · rw [hroot] at hq; simp [middleware] at hq
      · rw [middleware, if_neg hroot] at hq
        rcases hsl : stripLocale p with - | q'
        · rw [hsl] at hq; exact absurd hq (by simp)
        · exact (stripLocale_isSome_iff p).1 (by simp [hsl])
    · intro hleg
      have hsome := (stripLocale_isSome_iff p).2 hleg
      have hroot : p ≠ ['/'] := by
        rintro rfl
        obtain ⟨c1, c2, rest, h, -, -⟩ := hleg
        exact absurd h (by simp)
      rcases hsl : stripLocale p with - | q'
      · rw [hsl] at hsome; exact absurd hsome (by simp)
      · exact ⟨_, by rw [middleware, if_neg hroot, hsl]⟩
  · intro c1 c2 h
    obtain ⟨h1, h2⟩ := stripLocale_eq c1 c2 h
    constructor
    · rw [middleware, if_neg (by simp), h1]; simp
    · intro r; rw [middleware, if_neg (by simp), h2 r]; simp
  · intro hroot hleg
    have : ¬(stripLocale p).isSome := fun h => hleg ((stripLocale_isSome_iff p).1 h)
    rcases hsl : stripLocale p with - | q'
    · rw [middleware, if_neg hroot, hsl]
    · rw [hsl] at this; exact absurd (by simp) this

/-- Witness for C9 at concrete pathnames: an uppercase legacy prefix is
redirected with the prefix stripped, a bare locale pathname is redirected to
the root, and a non-locale pathname is delegated to the intl middleware. -/
theorem middleware_locale_spec_witness :
    middleware ['/', 'Z', 'H', '/', 'a'] = MwResult.redirect ['/', 'a'] ∧
    middleware ['/', 'e', 'n'] = MwResult.redirect ['/'] ∧
    middleware ['/', 'a', 'b'] = MwResult.intl := by
  refine ⟨?_, ?_, ?_⟩
  · exact ((middleware_locale_spec ['/']).2.2.1 'Z' 'H' (by decide)).2 ['a']
  · exact ((middleware_locale_spec ['/']).2.2.1 'e' 'n' (by decide)).1
  · refine (middleware_locale_spec ['/', 'a', 'b']).2.2.2 (by decide) ?_
    rintro ⟨c1, c2, rest, heq, hmem, -⟩
    obtain ⟨-, h1, h2, -⟩ : '/' = '/' ∧ 'a' = c1 ∧ 'b' = c2 ∧ [] = rest := by
      simpa using heq
    rw [← h1, ← h2] at hmem
    simp at hmem

/-! ## Theorems about the `useTeams` fetcher -/

/-- C10: a 404 resolves to the empty team list; every other non-ok status
throws an `ApiError` whose status equals the HTTP status and whose info is
the parsed JSON body, or a message object wrapping the body text when the
body is not JSON; an ok response resolves to its parsed JSON body. -/
theorem fetcher_spec (res : Response) :
    (res.status = 404 → fetcher res = .resolved (.arr [])) ∧
    (res.status ≠ 404 → res.ok = false →
      ∃ e, fetcher res = .apiError e ∧
        e.status = res.status ∧
        e.message = "An error occurred while fetching the data." ∧
        (∀ v, res.body = .jsonBody v → e.info = v) ∧
        (∀ s, res.body = .textBody s → e.info = .obj [("message", .str s)])) ∧
    (res.ok = true → ∀ v, res.body = .jsonBody v → fetcher res = .resolved v) := by
  obtain ⟨st, body⟩ := res
  refine ⟨?_, ?_, ?_⟩
  · intro h; subst h; simp [fetcher]
  · intro h404 hok
    rw [fetcher, if_neg h404]
    rw [show Response.ok ⟨st, body⟩ = false from hok]
    refine ⟨_, rfl, rfl, rfl, ?_, ?_⟩
    · intro v hv; subst hv; rfl
    · intro s hs; subst hs; rfl
  · intro hok v hv
    subst hv
    have h404 : st ≠ 404 := by
      intro h
      rw [Response.ok] at hok
      subst h
      simp at hok
    rw [fetcher, if_neg h404]
    rw [show Response.ok ⟨st, Body.jsonBody v⟩ = true from hok]
    rfl

/-- Witness for C10 at three concrete responses: a 404 with a non-JSON
body, a 500 with a non-JSON body, and a 200 with a JSON body. -/
theorem fetcher_spec_witness :
    fetcher ⟨404, .textBody "missing"⟩ = .resolved (.arr []) ∧
    (∃ e, fetcher ⟨500, .textBody "oops"⟩ = .apiError e ∧
      e.status = 500 ∧ e.info = .obj [("message", .str "oops")]) ∧
    fetcher ⟨200, .jsonBody (.arr [.str "team-1"])⟩
      = .resolved (.arr [.str "team-1"]) := by
  refine ⟨(fetcher_spec ⟨404, .textBody "missing"⟩).1 rfl, ?_, ?_⟩
  · obtain ⟨e, he, hst, -, -, htext⟩ :=
      (fetcher_spec ⟨500, .textBody "oops"⟩).2.1 (by decide) (by decide)
    exact ⟨e, he, hst, htext "oops" rfl⟩
  · exact (fetcher_spec ⟨200, .jsonBody (.arr [.str "team-1"])⟩).2.2 (by decide)
      (.arr [.str "team-1"]) rfl

/-! ## Theorems about the frontend expert status -/

/-- Counterexample for C8: the frontend `Expert` interface admits the status
`idle`, a well-typed expert value the card renders (badge text and color
included) whose status is none of active, busy, offline. -/
theorem expert_status_three_values_cex :
    idleExpert.status ≠ ExpertStatus.active ∧
    idleExpert.status ≠ ExpertStatus.busy ∧
    idleExpert.status ≠ ExpertStatus.offline ∧
    getStatusText idleExpert.status = "空闲" ∧
    getStatusColor idleExpert.status = BadgeVariant.info :=
  ⟨by decide, by decide, by decide, rfl, rfl⟩

/-- C8 as amended: the status of a frontend expert ranges over exactly the
five declared values active, idle, busy, error, offline, while the status of
a backend expert instance ranges over exactly the three values active, busy,
offline; every operation preserves these enumerations since both are closed
types. -/
theorem expert_status_enumerations :
    (∀ s : ExpertStatus, s = .active ∨ s = .idle ∨ s = .busy
      ∨ s = .error ∨ s = .offline) ∧
    (∀ e : Expert, e.status = .active ∨ e.status = .idle ∨ e.status = .busy
      ∨ e.status = .error ∨ e.status = .offline) ∧
    (∀ s : ExpertIStatus, s = .active ∨ s = .busy ∨ s = .offline) ∧
    (∀ e : ExpertInstance, e.status = .active ∨ e.status = .busy
      ∨ e.status = .offline) := by
  refine ⟨?_, ?_, ?_, ?_⟩
  · intro s; cases s <;> simp
  · intro e; cases h : e.status <;> simp
  · intro s; cases s <;> simp
  · intro e; cases h : e.status <;> simp

/-! ## Theorems about the task state machine -/

/-- The decision procedure agrees with the declared state machine. -/
lemma transitionAllowed_iff (t : Task) (ns : TaskStatus) (via : TransitionKind) :
    transitionAllowed t ns via = true ↔ AllowedTransition t ns via := by
  constructor
  · intro h
    cases via with
    | needsRevision =>
        simp only [transitionAllowed, Bool.and_eq_true, beq_iff_eq,
          decide_eq_true_eq] at h
        obtain ⟨⟨h1, h2⟩, h3⟩ := h
        subst h2
        exact .revise h1 h3
    | reschedule =>
        simp only [transitionAllowed, Bool.and_eq_true, beq_iff_eq] at h
        obtain ⟨h1, h2⟩ := h
        subst h2
        exact .reschedule h1
    | normal =>
        cases hs : t.status <;> cases ns <;> simp [transitionAllowed, hs] at h <;>
          first
          | exact .assign hs
          | exact .start hs
          | exact .complete hs
          | exact .fail hs
          | exact .cancel (by rw [hs]; simp) (by rw [hs]; simp)
  · intro h
    cases h with
    | assign h1 => simp [transitionAllowed, h1]
    | start h1 => simp [transitionAllowed, h1]
    | complete h1 => simp [transitionAllowed, h1]
    | fail h1 => simp [transitionAllowed, h1]
    | revise h1 h2 => simp [transitionAllowed, h1, h2]
    | reschedule h1 => simp [transitionAllowed, h1]
    | cancel h1 h2 =>
        cases hs : t.status <;>
          simp_all [transitionAllowed]

/-- C2: a requested status change succeeds exactly when it is an edge of
the declared state machine; a successful update installs the new status;
every illegal attempt fails with `InvalidTransitionError` and, the operation
returning no task, leaves the task unchanged. -/
theorem update_task_status_spec (t : Task) (ns : TaskStatus) (via : TransitionKind) :
    ((∃ t2, update_task_status t ns via = .ok t2) ↔ AllowedTransition t ns via) ∧
    (∀ t2, update_task_status t ns via = .ok t2 → t2.status = ns) ∧
    (¬AllowedTransition t ns via →
      update_task_status t ns via = .error .invalidTransitionError) := by
  by_cases h : transitionAllowed t ns via = true
  · have ha := (transitionAllowed_iff t ns via).1 h
    refine ⟨⟨fun _ => ha, fun _ => ⟨_, by rw [update_task_status, if_pos h]⟩⟩, ?_, ?_⟩
    · intro t2 ht2
      rw [update_task_status, if_pos h] at ht2
      cases ht2
      rfl
    · intro hna; exact absurd ha hna
  · have hna : ¬AllowedTransition t ns via :=
      fun ha => h ((transitionAllowed_iff t ns via).2 ha)
    have herr : update_task_status t ns via = .error .invalidTransitionError := by
      rw [update_task_status, if_neg h]
    refine ⟨⟨?_, fun ha => absurd ha hna⟩, ?_, fun _ => herr⟩
    · rintro ⟨t2, ht2⟩
      rw [herr] at ht2
      exact absurd ht2 (by simp)
    · intro t2 ht2
      rw [herr] at ht2
      exact absurd ht2 (by simp)

/-- A concrete completed task, used to exercise the terminal states. -/
def doneTask : Task :=
  { taskId := 7
    title := "strategy"
    description := "plan"
    goal := "deliver"
    status := .completed
    priority := .medium
    requiredRole := .planner
    assignedTo := none
    tags := []
    dependencies := []
    retryCount := 0
    maxRetries := 3
    failureReason := none
    escalated := false
    createdAt := 0 }

/-- Witness for C2 at concrete inputs: a completed task can neither be
restarted nor cancelled (both fail with `InvalidTransitionError`), while a
pending task is legally assignable and the update installs the new
status. -/
theorem update_task_status_spec_witness :
    update_task_status doneTask .inProgress .normal
      = .error .invalidTransitionError ∧
    update_task_status doneTask .cancelled .normal
      = .error .invalidTransitionError ∧
    ∃ t2, update_task_status { doneTask with status := .pending } .assigned .normal
      = .ok t2 ∧ t2.status = .assigned := by
  refine ⟨?_, ?_, ?_⟩
  · refine (update_task_status_spec doneTask .inProgress .normal).2.2 ?_
    rintro (_ | _ | _ | _ | _ | _ | _) ; simp_all [doneTask]
  · refine (update_task_status_spec doneTask .cancelled .normal).2.2 ?_
    rintro (_ | _ | _ | _ | _ | _ | _) ; simp_all [doneTask]
  · obtain ⟨t2, ht2⟩ :=
      ((update_task_status_spec { doneTask with status := .pending }
        .assigned .normal).1).2 (.assign rfl)
    exact ⟨t2, ht2,
      (update_task_status_spec { doneTask with status := .pending }
        .assigned .normal).2.1 t2 ht2⟩

/-! ## Theorems about the scheduler -/

/-- Propositional characterisation of the strict key preference. -/
lemma keyBetter_iff (j k : Rat × Nat × Nat) :
    keyBetter j k = true ↔
      k.1 < j.1 ∨ (j.1 = k.1 ∧
        (j.2.1 < k.2.1 ∨ (j.2.1 = k.2.1 ∧ j.2.2 < k.2.2))) := by
  rw [keyBetter]
  split_ifs <;> simp [*]

/-- The strict key preference is irreflexive. -/
lemma keyBetter_irrefl (k : Rat × Nat × Nat) : keyBetter k k = false := by
  rw [Bool.eq_false_iff]
  intro h
  rcases (keyBetter_iff k k).1 h with h1 | ⟨-, h2 | ⟨-, h3⟩⟩
  · exact absurd h1 (lt_irrefl _)
  · exact absurd h2 (lt_irrefl _)
  · exact absurd h3 (lt_irrefl _)

/-- The strict key preference is asymmetric. -/
lemma keyBetter_asymm {j k : Rat × Nat × Nat} (h : keyBetter j k = true) :
    keyBetter k j = false := by
  rw [Bool.eq_false_iff]
  intro h2
  rcases (keyBetter_iff j k).1 h with a1 | ⟨a1, a2 | ⟨a2, a3⟩⟩ <;>
    rcases (keyBetter_iff k j).1 h2 with b1 | ⟨b1, b2 | ⟨b2, b3⟩⟩ <;>
      first
      | exact lt_asymm a1 b1
      | omega
      | simp [b1] at a1
      | simp [a1] at b1

/-- Keys that neither strictly precede the other are equal. -/
lemma keyBetter_total {j k : Rat × Nat × Nat} (h1 : keyBetter j k = false)
    (h2 : keyBetter k j = false) : j = k := by
  have h1a : ¬(k.1 < j.1 ∨ (j.1 = k.1 ∧
      (j.2.1 < k.2.1 ∨ (j.2.1 = k.2.1 ∧ j.2.2 < k.2.2)))) := by
    rw [← keyBetter_iff]; simp [h1]
  have h2a : ¬(j.1 < k.1 ∨ (k.1 = j.1 ∧
      (k.2.1 < j.2.1 ∨ (k.2.1 = j.2.1 ∧ k.2.2 < j.2.2)))) := by
    rw [← keyBetter_iff]; simp [h2]
  push_neg at h1a h2a
  obtain ⟨ha1, ha2⟩ := h1a
  obtain ⟨hb1, hb2⟩ := h2a
  have hs : j.1 = k.1 := le_antisymm ha1 hb1
  obtain ⟨ha3, ha4⟩ := ha2 hs
  obtain ⟨hb3, hb4⟩ := hb2 hs.symm
  have hl : j.2.1 = k.2.1 := by omega
  have ht : j.2.2 = k.2.2 := by
    have hx := ha4 hl
    have hy := hb4 hl.symm
    omega
  obtain ⟨js, jl, jt⟩ := j
  obtain ⟨ks, kl, kt⟩ := k
  simp only at hs hl ht
  rw [hs, hl, ht]

/-- The strict key preference is transitive. -/
lemma keyBetter_trans {i j k : Rat × Nat × Nat} (h1 : keyBetter i j = true)
    (h2 : keyBetter j k = true) : keyBetter i k = true := by
  rw [keyBetter_iff] at h1 h2 ⊢
  rcases h1 with a1 | ⟨a1, a2 | ⟨a2, a3⟩⟩ <;>
    rcases h2 with b1 | ⟨b1, b2 | ⟨b2, b3⟩⟩
  · exact Or.inl (lt_trans b1 a1)
  · exact Or.inl (b1 ▸ a1)
  · exact Or.inl (b1 ▸ a1)
  · exact Or.inl (a1 ▸ b1)
  · exact Or.inr ⟨a1.trans b1, Or.inl (lt_trans a2 b2)⟩
  · exact Or.inr ⟨a1.trans b1, Or.inl (b2 ▸ a2)⟩
  · exact Or.inl (a1 ▸ b1)
  · exact Or.inr ⟨a1.trans b1, Or.inl (a2 ▸ b2)⟩
  · exact Or.inr ⟨a1.trans b1, Or.inr ⟨a2.trans b2, lt_trans a3 b3⟩⟩

/-- Negative transitivity of the strict key preference. -/
lemma keyBetter_neg_trans {i j k : Rat × Nat × Nat} (h1 : keyBetter i j = false)
    (h2 : keyBetter j k = false) : keyBetter i k = false := by
  rw [Bool.eq_false_iff]
  intro hik
  by_cases hji : keyBetter j i = true
  · exact absurd (keyBetter_trans hji hik) (Bool.eq_false_iff.1 h2)
  · have : j = i := keyBetter_total (Bool.eq_false_iff.2 (fun h => hji h)) h1
    subst this
    exact absurd hik (Bool.eq_false_iff.1 h2)

/-- The selected expert of the fold belongs to the pool it was selected
from. -/
lemma pickFrom_mem (t : Task) (l : List ExpertInstance) :
    ∀ b, pickFrom t b l ∈ b :: l := by
  induction l with
  | nil => intro b; simp [pickFrom]
  | cons e rest ih =>
      intro b
      rw [pickFrom]
      by_cases hw : better t e b = true
      · rw [if_pos hw]
        exact List.mem_cons_of_mem b (ih e)
      · rw [if_neg hw]
        rcases List.mem_cons.1 (ih b) with h | h
        · rw [h]; exact List.mem_cons_self _ _
        · exact List.mem_cons_of_mem _ (List.mem_cons_of_mem _ h)

/-- No member of the pool is strictly preferred to the selected expert. -/
lemma pickFrom_best (t : Task) (l : List ExpertInstance) :
    ∀ b, ∀ x ∈ b :: l, better t x (pickFrom t b l) = false := by
  induction l with
  | nil =>
      intro b x hx
      rw [List.mem_singleton] at hx
      subst hx
      exact keyBetter_irrefl _
  | cons e rest ih =>
      intro b x hx
      rw [List.mem_cons, List.mem_cons] at hx
      rw [pickFrom]
      by_cases hw : better t e b = true
      · rw [if_pos hw]
        rcases hx with rfl | rfl | hx
        · -- x is the displaced accumulator b
          have hlose : better t x e = false := keyBetter_asymm hw
          have hkeep : better t e (pickFrom t e rest) = false :=
            ih e e (List.mem_cons_self _ _)
          exact keyBetter_neg_trans hlose hkeep
        · exact ih x x (List.mem_cons_self _ _)
        · exact ih e x (List.mem_cons_of_mem _ hx)
      · rw [if_neg hw]
        rcases hx with rfl | rfl | hx
        · exact ih x x (List.mem_cons_self _ _)
        · -- x is the rejected element e
          have hlose : better t x b = false := Bool.eq_false_iff.2 hw
          have hkeep : better t b (pickFrom t b rest) = false :=
            ih b b (List.mem_cons_self _ _)
          exact keyBetter_neg_trans hlose hkeep
        · exact ih b x (List.mem_cons_of_mem _ hx)

/-- The scheduler selection is empty exactly on the empty pool. -/
lemma pickBest_none_iff (t : Task) (l : List ExpertInstance) :
    pickBest t l = none ↔ l = [] := by
  cases l <;> simp [pickBest]

/-- The selected expert belongs to the pool. -/
lemma pickBest_mem {t : Task} {l : List ExpertInstance} {e : ExpertInstance}
    (h : pickBest t l = some e) : e ∈ l := by
  cases l with
  | nil => exact absurd h (by simp [pickBest])
  | cons a rest =>
      rw [pickBest, Option.some_inj] at h
      subst h
      exact pickFrom_mem t rest a

/-- No member of the pool is strictly preferred to the selected expert. -/
lemma pickBest_best {t : Task} {l : List ExpertInstance} {e : ExpertInstance}
    (h : pickBest t l = some e) : ∀ x ∈ l, better t x e = false := by
  cases l with
  | nil => exact absurd h (by simp [pickBest])
  | cons a rest =>
      rw [pickBest, Option.some_inj] at h
      subst h
      intro x hx
      exact pickFrom_best t rest a x hx

/-- A successful assignment returns a member of the candidate set that no
candidate strictly precedes. -/
lemma assign_ok {t : Task} {es : List ExpertInstance} {e : ExpertInstance}
    (h : assign t es = .ok e) :
    e ∈ candidates t es ∧ ∀ x ∈ candidates t es, better t x e = false := by
  rw [assign] at h
  cases hp : pickBest t (candidates t es) with
  | none => rw [hp] at h; exact absurd h (by simp)
  | some a =>
      rw [hp] at h
      have : a = e := by cases h; rfl
      subst this
      exact ⟨pickBest_mem hp, pickBest_best hp⟩

/-- Unfolding of candidate membership into the three spec-side filters. -/
lemma mem_candidates_iff (t : Task) (es : List ExpertInstance)
    (e : ExpertInstance) :
    e ∈ candidates t es ↔ e ∈ es ∧ e.expertRole = t.requiredRole ∧
      e.status = .active ∧ e.currentTaskCount < e.maxConcurrentTasks := by
  simp [candidates, isCandidate, and_assoc]

/-- C3: the scheduler considers exactly the experts with matching role,
active status and strictly positive headroom; it fails with
`NoAvailableExpertError` exactly when that candidate set is empty; a
returned expert is a candidate (in particular never one whose current task
count has reached its cap, whatever its specialization score) of maximal
score, with ties broken by lowest current load and then earliest
creation. -/
theorem assign_spec (t : Task) (es : List ExpertInstance) :
    (assign t es = .error .noAvailableExpertError ↔ candidates t es = []) ∧
    (∀ e, assign t es = .ok e →
      e ∈ es ∧ e.expertRole = t.requiredRole ∧ e.status = .active ∧
      e.currentTaskCount < e.maxConcurrentTasks ∧
      ∀ x ∈ candidates t es,
        score x t ≤ score e t ∧
        (score x t = score e t → e.currentTaskCount ≤ x.currentTaskCount) ∧
        (score x t = score e t → x.currentTaskCount = e.currentTaskCount →
          e.createdAt ≤ x.createdAt)) := by
  constructor
  · rw [assign]
    cases hp : pickBest t (candidates t es) with
    | none => simp [pickBest_none_iff t (candidates t es) |>.1 hp]
    | some a =>
        constructor
        · intro h; exact absurd h (by simp)
        · intro h
          rw [h] at hp
          exact absurd hp (by simp [pickBest])
  · intro e he
    obtain ⟨hmem, hbest⟩ := assign_ok he
    obtain ⟨hin, hrole, hact, hcap⟩ := (mem_candidates_iff t es e).1 hmem
    refine ⟨hin, hrole, hact, hcap, ?_⟩
    intro x hx
    have hb : keyBetter (score x t, x.currentTaskCount, x.createdAt)
        (score e t, e.currentTaskCount, e.createdAt) = false := hbest x hx
    have hb2 : ¬(score e t < score x t ∨ (score x t = score e t ∧
        (x.currentTaskCount < e.currentTaskCount ∨
          (x.currentTaskCount = e.currentTaskCount ∧
            x.createdAt < e.createdAt)))) :=
      fun hp => (Bool.eq_false_iff.1 hb) ((keyBetter_iff _ _).2 hp)
    push_neg at hb2
    obtain ⟨hs, hrest⟩ := hb2
    refine ⟨hs, ?_, ?_⟩
    · intro heq; exact (hrest heq).1
    · intro heq hload; exact (hrest heq).2 hload

/-- A concrete high-priority executor task used to exercise the
scheduler. -/
def demoTask : Task :=
  { taskId := 1
    title := "post"
    description := "draft a post"
    goal := "publish"
    status := .pending
    priority := .high
    requiredRole := .executor
    assignedTo := none
    tags := ["social_media"]
    dependencies := []
    retryCount := 0
    maxRetries := 3
    failureReason := none
    escalated := false
    createdAt := 0 }

/-- A fully loaded executor whose specialization matches the demo task
perfectly: headroom zero, so never schedulable. -/
def demoFull : ExpertInstance :=
  { instanceId := 1
    expertRole := .executor
    instanceName := "Monica-1"
    status := .active
    maxConcurrentTasks := 2
    currentTaskCount := 2
    specializations := ["social_media"]
    successRate := 1
    createdAt := 0 }

/-- An idle executor with no matching specialization: positive headroom, so
schedulable. -/
def demoFree : ExpertInstance :=
  { instanceId := 2
    expertRole := .executor
    instanceName := "Monica-2"
    status := .active
    maxConcurrentTasks := 2
    currentTaskCount := 0
    specializations := []
    successRate := 1 / 2
    createdAt := 5 }

/-- Witness for C3 at concrete inputs: the scheduler picks the free expert,
never the one whose current task count equals its cap even though that one
has the higher specialization match, and it fails on an empty pool. -/
theorem assign_spec_witness :
    assign demoTask [demoFull, demoFree] = .ok demoFree ∧
    demoFree ∈ [demoFull, demoFree] ∧
    demoFree.currentTaskCount < demoFree.maxConcurrentTasks ∧
    demoFull.currentTaskCount = demoFull.maxConcurrentTasks ∧
    specializationMatch demoFull demoTask = 1 ∧
    specializationMatch demoFree demoTask = 0 ∧
    assign demoTask [] = .error .noAvailableExpertError := by
  have happly := (assign_spec demoTask [demoFull, demoFree]).2 demoFree rfl
  refine ⟨rfl, happly.1, happly.2.2.2.1, by decide, ?_, ?_, ?_⟩
  · norm_num [specializationMatch, demoFull, demoTask]
  · norm_num [specializationMatch, demoFree, demoTask]
  · exact (assign_spec demoTask []).1.2 rfl

/-- C4: the scheduler is deterministic: a second run on the same inputs
returns the same assignment, and the result does not even depend on the
incidental ordering of the expert pool whenever no two candidates tie on
score, load and creation time at once. -/
theorem assign_deterministic (t : Task) (es1 es2 : List ExpertInstance)
    (hperm : es1.Perm es2)
    (hkeys : ∀ a ∈ candidates t es1, ∀ b ∈ candidates t es1,
      schedKey t a = schedKey t b → a = b) :
    assign t es1 = assign t es1 ∧ assign t es1 = assign t es2 := by
  refine ⟨rfl, ?_⟩
  have hcperm : (candidates t es1).Perm (candidates t es2) :=
    hperm.filter (isCandidate t)
  rw [assign, assign]
  cases h1 : pickBest t (candidates t es1) with
  | none =>
      have : candidates t es1 = [] := (pickBest_none_iff _ _).1 h1
      have h2 : candidates t es2 = [] := by
        rw [this] at hcperm
        exact hcperm.symm.eq_nil
      rw [(pickBest_none_iff _ _).2 h2]
  | some e1 =>
      cases h2 : pickBest t (candidates t es2) with
      | none =>
          have h2e : candidates t es2 = [] := (pickBest_none_iff _ _).1 h2
          rw [h2e] at hcperm
          rw [hcperm.eq_nil] at h1
          exact absurd h1 (by simp [pickBest])
      | some e2 =>
          have he1 : e1 ∈ candidates t es1 := pickBest_mem h1
          have he2 : e2 ∈ candidates t es1 := hcperm.symm.subset (pickBest_mem h2)
          have hb1 : better t e2 e1 = false := pickBest_best h1 e2 he2
          have hb2 : better t e1 e2 = false :=
            pickBest_best h2 e1 (hcperm.subset he1)
          have : e1 = e2 := hkeys e1 he1 e2 he2 (keyBetter_total hb2 hb1)
          rw [this]

/-- Witness for C4 at concrete inputs: swapping the expert pool leaves the
assignment unchanged. -/
theorem assign_deterministic_witness :
    assign demoTask [demoFull, demoFree] = assign demoTask [demoFree, demoFull] := by
  refine (assign_deterministic demoTask [demoFull, demoFree] [demoFree, demoFull]
    (List.Perm.swap demoFree demoFull []) ?_).2
  have hc : candidates demoTask [demoFull, demoFree] = [demoFree] := rfl
  rw [hc]
  intro a ha b hb _
  rw [List.mem_singleton] at ha hb
  rw [ha, hb]

/-! ## Counting lemmas for keyed list updates -/

/-- A keyed update that touches no element of the list is the identity. -/
lemma map_keyed_noop {α : Type} (key : α → Nat) (g : α → α) (id : Nat)
    (l : List α) (h : ∀ u ∈ l, key u ≠ id) :
    (l.map fun u => if key u = id then g u else u) = l := by
  induction l with
  | nil => rfl
  | cons u rest ih =>
      rw [List.map_cons, if_neg (h u (List.mem_cons_self _ _)),
        ih fun v hv => h v (List.mem_cons_of_mem _ hv)]

/-- Updating the unique element carrying a key moves any summed statistic by
exactly the difference at that element. -/
lemma sum_map_update {α : Type} (key : α → Nat) (g : α → α) (f : α → Nat)
    (id : Nat) :
    ∀ (l : List α), (l.map key).Nodup → ∀ x ∈ l, key x = id →
      ((l.map fun u => if key u = id then g u else u).map f).sum + f x
        = (l.map f).sum + f (g x) := by
  intro l
  induction l with
  | nil => intro _ x hx; exact absurd hx (by simp)
  | cons u rest ih =>
      intro hnd x hx hxid
      rw [List.map_cons, List.nodup_cons] at hnd
      obtain ⟨hu, hnd2⟩ := hnd
      rcases List.mem_cons.1 hx with rfl | hx2
      · -- the head is the updated element; the tail is untouched
        have hrest : (rest.map fun u => if key u = id then g u else u) = rest := by
          apply map_keyed_noop
          intro v hv hvid
          exact hu (hxid ▸ hvid ▸ List.mem_map_of_mem key hv)
        rw [List.map_cons, if_pos hxid, hrest, List.map_cons, List.map_cons,
          List.sum_cons, List.sum_cons]
        omega
      · -- the head is untouched; recurse into the tail
        have hukey : key u ≠ id := by
          intro huid
          exact hu (huid ▸ hxid ▸ List.mem_map_of_mem key hx2)
        have hrec := ih hnd2 x hx2 hxid
        rw [List.map_cons, if_neg hukey, List.map_cons, List.map_cons,
          List.sum_cons, List.sum_cons]
        omega

/-- A keyed update that does not change the summed statistic anywhere leaves
the sum unchanged. -/
lemma sum_map_update_congr {α : Type} (key : α → Nat) (g : α → α) (f : α → Nat)
    (id : Nat) (l : List α) (h : ∀ u ∈ l, key u = id → f (g u) = f u) :
    ((l.map fun u => if key u = id then g u else u).map f).sum
      = (l.map f).sum := by
  induction l with
  | nil => rfl
  | cons u rest ih =>
      have ih2 := ih fun v hv => h v (List.mem_cons_of_mem _ hv)
      rw [List.map_cons, List.map_cons, List.map_cons, List.sum_cons,
        List.sum_cons, ih2]
      by_cases hu : key u = id
      · rw [if_pos hu, h u (List.mem_cons_self _ _) hu]
      · rw [if_neg hu]

/-- A keyed update that preserves a projection everywhere preserves the
mapped projection of the whole list. -/
lemma map_update_proj {α β : Type} (key : α → Nat) (g : α → α) (proj : α → β)
    (hp : ∀ a, proj (g a) = proj a) (id : Nat) (l : List α) :
    ((l.map fun u => if key u = id then g u else u).map proj) = l.map proj := by
  induction l with
  | nil => rfl
  | cons u rest ih =>
      rw [List.map_cons, List.map_cons, List.map_cons, ih]
      by_cases hu : key u = id
      · rw [if_pos hu, hp]
      · rw [if_neg hu]

/-- The sum of an indicator map is the length of the filtered list. -/
lemma sum_map_indicator {α : Type} (p : α → Bool) (l : List α) :
    (l.map fun a => if p a then 1 else 0).sum = (l.filter p).length := by
  induction l with
  | nil => rfl
  | cons a rest ih =>
      by_cases h : p a
      · simp [h, ih]
        omega
      · simp [h, ih]

/-! ## Preservation of expert well-formedness -/

/-- The assignment bookkeeping preserves instance identifiers. -/
lemma incExpert_ids (es : List ExpertInstance) (eid : Nat) :
    (incExpert es eid).map (·.instanceId) = es.map (·.instanceId) := by
  rw [incExpert]
  exact map_update_proj (·.instanceId) bumpLoad (·.instanceId) (fun _ => rfl) eid es

/-- The completion bookkeeping preserves instance identifiers. -/
lemma decExpert_ids (es : List ExpertInstance) (eid : Nat) :
    (decExpert es eid).map (·.instanceId) = es.map (·.instanceId) := by
  rw [decExpert]
  exact map_update_proj (·.instanceId) dropLoad (·.instanceId) (fun _ => rfl) eid es

/-- Incrementing the load of an expert that still has headroom keeps the
pool well-formed. -/
lemma ExpertsWF_inc {es : List ExpertInstance} (hwf : ExpertsWF es)
    {e : ExpertInstance} (he : e ∈ es)
    (hcap : e.currentTaskCount < e.maxConcurrentTasks) :
    ExpertsWF (incExpert es e.instanceId) := by
  obtain ⟨hnd, hbound⟩ := hwf
  constructor
  · rw [incExpert_ids]; exact hnd
  · intro x hx
    rw [incExpert] at hx
    rcases List.mem_map.1 hx with ⟨y, hy, rfl⟩
    by_cases hid : y.instanceId = e.instanceId
    · have : y = e := List.inj_on_of_nodup_map hnd hy he hid
      subst this
      rw [if_pos hid]
      simp only [bumpLoad]
      omega
    · rw [if_neg hid]
      exact hbound y hy

/-- Decrementing a load keeps the pool well-formed. -/
lemma ExpertsWF_dec {es : List ExpertInstance} (hwf : ExpertsWF es) (eid : Nat) :
    ExpertsWF (decExpert es eid) := by
  obtain ⟨hnd, hbound⟩ := hwf
  constructor
  · rw [decExpert_ids]; exact hnd
  · intro x hx
    rw [decExpert] at hx
    rcases List.mem_map.1 hx with ⟨y, hy, rfl⟩
    have := hbound y hy
    by_cases hid : y.instanceId = eid
    · rw [if_pos hid]
      simp only [dropLoad]
      omega
    · rw [if_neg hid]
      exact this

/-- The shape of the expert pool after one operation: unchanged,
incremented at the scheduled expert (a member with headroom), or
decremented at some identifier. -/
lemma applyOp_experts_shape (s : BBState) (op : BBOp) :
    (applyOp s op).experts = s.experts ∨
    (∃ e, e ∈ s.experts ∧ e.currentTaskCount < e.maxConcurrentTasks ∧
      (applyOp s op).experts = incExpert s.experts e.instanceId) ∨
    (∃ eid, (applyOp s op).experts = decExpert s.experts eid) := by
  cases op with
  | assignOp id =>
      cases hf : s.tasks.find? (fun t => t.taskId == id) with
      | none =>
          simp only [applyOp, auto_assign_task, hf]
          exact Or.inl trivial
      | some t =>
          simp only [applyOp, auto_assign_task, hf]
          by_cases hp : t.status = .pending
          · rw [if_pos hp]
            cases ha : assign t s.experts with
            | error err => exact Or.inl rfl
            | ok e =>
                obtain ⟨hmem, -⟩ := assign_ok ha
                obtain ⟨hin, -, -, hcap⟩ := (mem_candidates_iff _ _ _).1 hmem
                exact Or.inr (Or.inl ⟨e, hin, hcap, rfl⟩)
          · rw [if_neg hp]; exact Or.inl rfl
  | completeOp id =>
      cases hf : s.tasks.find? (fun t => t.taskId == id) with
      | none =>
          simp only [applyOp, complete_task, hf]
          exact Or.inl trivial
      | some t =>
          simp only [applyOp, complete_task, hf]
          by_cases hp : t.status = .assigned ∨ t.status = .inProgress
          · rw [if_pos hp]
            cases hass : t.assignedTo with
            | none => exact Or.inl rfl
            | some eid => exact Or.inr (Or.inr ⟨eid, rfl⟩)
          · rw [if_neg hp]; exact Or.inl rfl

/-- One operation preserves expert well-formedness. -/
lemma ExpertsWF_applyOp {s : BBState} (hwf : ExpertsWF s.experts) (op : BBOp) :
    ExpertsWF (applyOp s op).experts := by
  rcases applyOp_experts_shape s op with h | ⟨e, he, hcap, h⟩ | ⟨eid, h⟩
  · rw [h]; exact hwf
  · rw [h]; exact ExpertsWF_inc hwf he hcap
  · rw [h]; exact ExpertsWF_dec hwf eid

/-- C1: along any sequence of assignment and completion operations from a
well-formed expert pool, every expert instance's current task count stays at
or below its maximum concurrent task count. -/
theorem current_le_max_invariant (init : BBState) (ops : List BBOp)
    (h : ExpertsWF init.experts) :
    ∀ e ∈ (runOps init ops).experts,
      e.currentTaskCount ≤ e.maxConcurrentTasks := by
  suffices hs : ExpertsWF (runOps init ops).experts from hs.2
  induction ops generalizing init with
  | nil => exact h
  | cons op rest ih => exact ih (applyOp init op) (ExpertsWF_applyOp h op)

/-- Witness for C1 at a concrete run: one expert of capacity 1, assigned,
asked again (the second assignment attempt finds no headroom and is
skipped), completed, then assigned again, never exceeds its cap. -/
theorem current_le_max_invariant_witness :
    ((runOps
      { experts := [{ demoFree with maxConcurrentTasks := 1 }],
        tasks := [demoTask, { demoTask with taskId := 2 }] }
      [.assignOp 1, .assignOp 2, .completeOp 1, .assignOp 2]).experts.all
      fun e => decide (e.currentTaskCount ≤ e.maxConcurrentTasks)) = true := by
  rw [List.all_eq_true]
  intro e he
  rw [decide_eq_true_eq]
  exact current_le_max_invariant _ _ ⟨by decide, by decide⟩ e he

/-! ## Preservation of full system well-formedness -/

/-- A successful find gives a member carrying the searched identifier. -/
lemma find?_taskId {tasks : List Task} {id : Nat} {t : Task}
    (hf : tasks.find? (fun u => u.taskId == id) = some t) :
    t ∈ tasks ∧ t.taskId = id := by
  refine ⟨List.mem_of_find?_eq_some hf, ?_⟩
  have := List.find?_some hf
  simpa using this

/-- Members of an incremented pool descend from members of the pool with the
same identifier and role. -/
lemma mem_incExpert {es : List ExpertInstance} {eid : Nat} {x : ExpertInstance}
    (hx : x ∈ incExpert es eid) :
    ∃ y ∈ es, x.instanceId = y.instanceId ∧ x.expertRole = y.expertRole := by
  rw [incExpert] at hx
  rcases List.mem_map.1 hx with ⟨y, hy, rfl⟩
  refine ⟨y, hy, ?_, ?_⟩ <;> split <;> rfl

/-- Members of a decremented pool descend from members of the pool with the
same identifier and role. -/
lemma mem_decExpert {es : List ExpertInstance} {eid : Nat} {x : ExpertInstance}
    (hx : x ∈ decExpert es eid) :
    ∃ y ∈ es, x.instanceId = y.instanceId ∧ x.expertRole = y.expertRole := by
  rw [decExpert] at hx
  rcases List.mem_map.1 hx with ⟨y, hy, rfl⟩
  refine ⟨y, hy, ?_, ?_⟩ <;> split <;> rfl

/-- A pending task occupies no expert slot. -/
lemma taskActiveFlag_pending (r : ExpertRole) {u : Task}
    (h : u.status = .pending) : taskActiveFlag r u = 0 := by
  simp [taskActiveFlag, h]

/-- An assigned or in-progress task occupies one slot of its role. -/
lemma taskActiveFlag_active (r : ExpertRole) {u : Task}
    (h : u.status = .assigned ∨ u.status = .inProgress) :
    taskActiveFlag r u = if u.requiredRole == r then 1 else 0 := by
  rcases h with h | h <;> simp [taskActiveFlag, h]

/-- A freshly assigned task occupies one slot of its role. -/
lemma taskActiveFlag_markAssigned (r : ExpertRole) (eid : Nat) (u : Task) :
    taskActiveFlag r (markAssigned eid u)
      = if u.requiredRole == r then 1 else 0 := by
  simp [taskActiveFlag, markAssigned]

/-- A completed task occupies no expert slot. -/
lemma taskActiveFlag_markCompleted (r : ExpertRole) (u : Task) :
    taskActiveFlag r (markCompleted u) = 0 := by
  simp [taskActiveFlag, markCompleted]

/-- Incrementing an expert's load adds one to its role's load. -/
lemma expertLoadOf_bump (r : ExpertRole) (y : ExpertInstance) :
    expertLoadOf r (bumpLoad y)
      = expertLoadOf r y + (if y.expertRole == r then 1 else 0) := by
  rw [expertLoadOf, expertLoadOf, bumpLoad]
  by_cases h : y.expertRole = r <;> simp [h]

/-- Decrementing an expert's load takes at most one from its role's load. -/
lemma expertLoadOf_drop (r : ExpertRole) (y : ExpertInstance) :
    expertLoadOf r (dropLoad y) ≤ expertLoadOf r y ∧
      expertLoadOf r y ≤ expertLoadOf r (dropLoad y)
        + (if y.expertRole == r then 1 else 0) := by
  rw [expertLoadOf, expertLoadOf, dropLoad]
  by_cases h : y.expertRole = r
  · simp [h]
    omega
  · simp [h]

/-- A role indicator is at most one. -/
lemma roleFlag_le_one (b : Bool) : (if b then 1 else 0) ≤ 1 := by
  split <;> omega

/-- One operation preserves full system well-formedness. -/
lemma SysWF_applyOp {s : BBState} (h : SysWF s) (op : BBOp) :
    SysWF (applyOp s op) := by
  obtain ⟨hwf, hndt, hav, hcount⟩ := h
  obtain ⟨hnde, hbound⟩ := hwf
  cases op with
  | assignOp id =>
      cases hf : s.tasks.find? (fun t => t.taskId == id) with
      | none =>
          simp only [applyOp, auto_assign_task, hf]
          exact ⟨⟨hnde, hbound⟩, hndt, hav, hcount⟩
      | some t =>
          obtain ⟨ht, htid⟩ := find?_taskId hf
          simp only [applyOp, auto_assign_task, hf]
          by_cases hp : t.status = .pending
          · rw [if_pos hp]
            cases ha : assign t s.experts with
            | error err => exact ⟨⟨hnde, hbound⟩, hndt, hav, hcount⟩
            | ok e =>
                dsimp only
                obtain ⟨hmem, -⟩ := assign_ok ha
                obtain ⟨hin, hrole, hact, hcap⟩ :=
                  (mem_candidates_iff _ _ _).1 hmem
                refine ⟨ExpertsWF_inc ⟨hnde, hbound⟩ hin hcap, ?_, ?_, ?_⟩
                · have hproj := map_update_proj (fun u : Task => u.taskId)
                    (markAssigned e.instanceId) (fun u : Task => u.taskId)
                    (fun _ => rfl) id s.tasks
                  simpa [hproj] using hndt
                · intro u2 hu2 eid heq x hx hxid
                  rcases List.mem_map.1 hu2 with ⟨u, hu, rfl⟩
                  rcases mem_incExpert hx with ⟨y, hy, hyid, hyrole⟩
                  by_cases huid : u.taskId = id
                  · rw [if_pos huid] at heq ⊢
                    simp only [markAssigned, Option.some_inj] at heq
                    have hye : y = e := List.inj_on_of_nodup_map hnde hy hin
                      (by rw [← hyid, hxid, heq])
                    have hut : u = t := List.inj_on_of_nodup_map hndt hu ht
                      (by rw [huid, htid])
                    simp only [markAssigned]
                    rw [hyrole, hye, hrole, hut]
                  · rw [if_neg huid] at heq ⊢
                    rw [hyrole]
                    exact hav u hu eid heq y hy (by rw [← hyid, hxid])
                · intro r
                  have htasks := sum_map_update (fun u : Task => u.taskId)
                    (markAssigned e.instanceId) (taskActiveFlag r)
                    id s.tasks hndt t ht htid
                  rw [taskActiveFlag_pending r hp,
                    taskActiveFlag_markAssigned r e.instanceId t] at htasks
                  have hexp := sum_map_update
                    (fun y : ExpertInstance => y.instanceId) bumpLoad
                    (expertLoadOf r) e.instanceId s.experts hnde e hin rfl
                  rw [expertLoadOf_bump r e, hrole] at hexp
                  have hc := hcount r
                  simp only [activeRole, loadRole, incExpert] at hc htasks hexp ⊢
                  omega
          · rw [if_neg hp]
            exact ⟨⟨hnde, hbound⟩, hndt, hav, hcount⟩
  | completeOp id =>
      cases hf : s.tasks.find? (fun t => t.taskId == id) with
      | none =>
          simp only [applyOp, complete_task, hf]
          exact ⟨⟨hnde, hbound⟩, hndt, hav, hcount⟩
      | some t =>
          obtain ⟨ht, htid⟩ := find?_taskId hf
          simp only [applyOp, complete_task, hf]
          by_cases hp : t.status = .assigned ∨ t.status = .inProgress
          · rw [if_pos hp]
            have hndt2 := by
              have hproj := map_update_proj (fun u : Task => u.taskId)
                markCompleted (fun u : Task => u.taskId) (fun _ => rfl) id s.tasks
              exact hproj ▸ hndt
            have havalid : ∀ u2 ∈ (s.tasks.map fun u =>
                if u.taskId = id then markCompleted u else u),
                ∀ eid, u2.assignedTo = some eid →
                ∀ y ∈ s.experts, y.instanceId = eid →
                  y.expertRole = u2.requiredRole := by
              intro u2 hu2 eid heq y hy hyid
              rcases List.mem_map.1 hu2 with ⟨u, hu, rfl⟩
              by_cases huid : u.taskId = id
              · rw [if_pos huid] at heq ⊢
                simp only [markCompleted] at heq ⊢
                exact hav u hu eid heq y hy hyid
              · rw [if_neg huid] at heq ⊢
                exact hav u hu eid heq y hy hyid
            have htasks : ∀ r : ExpertRole,
                ((s.tasks.map fun u =>
                    if u.taskId = id then markCompleted u else u).map
                  (taskActiveFlag r)).sum
                  + (if t.requiredRole == r then 1 else 0)
                  = (s.tasks.map (taskActiveFlag r)).sum := by
              intro r
              have hstep := sum_map_update (fun u : Task => u.taskId)
                markCompleted (taskActiveFlag r) id s.tasks hndt t ht htid
              rw [taskActiveFlag_active r hp,
                taskActiveFlag_markCompleted r t] at hstep
              simpa using hstep
            cases hass : t.assignedTo with
            | none =>
                refine ⟨⟨hnde, hbound⟩, hndt2, ?_, ?_⟩
                · dsimp only
                  intro u2 hu2 eid heq x hx hxid
                  exact havalid u2 hu2 eid heq x hx hxid
                · intro r
                  dsimp only
                  have h5 := htasks r
                  have hc := hcount r
                  simp only [activeRole, loadRole] at hc h5 ⊢
                  omega
            | some eid2 =>
                refine ⟨ExpertsWF_dec ⟨hnde, hbound⟩ eid2, hndt2, ?_, ?_⟩
                · dsimp only
                  intro u2 hu2 eid heq x hx hxid
                  rcases mem_decExpert hx with ⟨y, hy, hyid, hyrole⟩
                  rw [hyrole]
                  exact havalid u2 hu2 eid heq y hy (by rw [← hyid, hxid])
                · intro r
                  dsimp only
                  have h5 := htasks r
                  have hc := hcount r
                  have hflag := roleFlag_le_one (t.requiredRole == r)
                  by_cases hex : ∃ y ∈ s.experts, y.instanceId = eid2
                  · obtain ⟨y, hy, hyid⟩ := hex
                    have hexp := sum_map_update
                      (fun z : ExpertInstance => z.instanceId) dropLoad
                      (expertLoadOf r) eid2 s.experts hnde y hy hyid
                    have hdrop := expertLoadOf_drop r y
                    have hyrole : y.expertRole = t.requiredRole :=
                      hav t ht eid2 hass y hy hyid
                    rw [hyrole] at hdrop
                    simp only [activeRole, loadRole, decExpert] at hc h5 hexp ⊢
                    omega
                  · push_neg at hex
                    have hnoop : decExpert s.experts eid2 = s.experts :=
                      map_keyed_noop _ _ _ _ hex
                    rw [hnoop]
                    simp only [activeRole, loadRole] at hc h5 ⊢
                    omega
          · rw [if_neg hp]
            exact ⟨⟨hnde, hbound⟩, hndt, hav, hcount⟩

/-- Well-formedness survives any operation sequence. -/
lemma SysWF_runOps (s : BBState) (ops : List BBOp) (h : SysWF s) :
    SysWF (runOps s ops) := by
  induction ops generalizing s with
  | nil => exact h
  | cons op rest ih => exact ih (applyOp s op) (SysWF_applyOp h op)

/-- Incrementing a load leaves every role capacity unchanged. -/
lemma capacityRole_inc (es : List ExpertInstance) (eid : Nat) (r : ExpertRole) :
    capacityRole (incExpert es eid) r = capacityRole es r := by
  rw [capacityRole, capacityRole, incExpert]
  exact sum_map_update_congr (·.instanceId) bumpLoad (expertCapOf r) eid es
    (fun _ _ _ => rfl)

/-- Decrementing a load leaves every role capacity unchanged. -/
lemma capacityRole_dec (es : List ExpertInstance) (eid : Nat) (r : ExpertRole) :
    capacityRole (decExpert es eid) r = capacityRole es r := by
  rw [capacityRole, capacityRole, decExpert]
  exact sum_map_update_congr (·.instanceId) dropLoad (expertCapOf r) eid es
    (fun _ _ _ => rfl)

/-- No operation changes any role's total capacity. -/
lemma capacityRole_runOps (s : BBState) (ops : List BBOp) (r : ExpertRole) :
    capacityRole (runOps s ops).experts r = capacityRole s.experts r := by
  induction ops generalizing s with
  | nil => rfl
  | cons op rest ih =>
      rw [runOps, List.foldl_cons]
      rw [show (List.foldl applyOp (applyOp s op) rest)
        = runOps (applyOp s op) rest from rfl]
      rw [ih (applyOp s op)]
      rcases applyOp_experts_shape s op with h | ⟨e, -, -, h⟩ | ⟨eid, h⟩ <;> rw [h]
      · exact capacityRole_inc s.experts e.instanceId r
      · exact capacityRole_dec s.experts eid r

/-- Per-role load never exceeds per-role capacity in a pool respecting the
per-instance caps. -/
lemma loadRole_le_capacityRole (es : List ExpertInstance)
    (h : ∀ e ∈ es, e.currentTaskCount ≤ e.maxConcurrentTasks) (r : ExpertRole) :
    loadRole es r ≤ capacityRole es r := by
  rw [loadRole, capacityRole]
  apply List.sum_le_sum
  intro y hy
  rw [expertLoadOf, expertCapOf]
  split
  · exact h y hy
  · exact le_refl 0

/-- Assigned tasks are a subset of the slot-occupying tasks. -/
lemma assignedRole_le_activeRole (s : BBState) (r : ExpertRole) :
    assignedRole s r ≤ activeRole s r := by
  rw [assignedRole, activeRole]
  apply List.sum_le_sum
  intro u hu
  rw [taskAssignedFlag, taskActiveFlag]
  by_cases h : (u.requiredRole == r && u.status == TaskStatus.assigned) = true
  · rw [if_pos h]
    rw [Bool.and_eq_true] at h
    have h2 : (u.requiredRole == r && (u.status == TaskStatus.assigned
        || u.status == TaskStatus.inProgress)) = true := by
      rw [Bool.and_eq_true, Bool.or_eq_true]
      exact ⟨h.1, Or.inl h.2⟩
    rw [if_pos h2]
  · rw [if_neg h]
    exact Nat.zero_le _

/-- When every executor handles one task at a time, the executor capacity is
the number of executor instances. -/
lemma capacity_of_unit_executors (es : List ExpertInstance)
    (hmax : ∀ e ∈ es, e.expertRole = .executor → e.maxConcurrentTasks = 1) :
    capacityRole es .executor
      = (es.filter (fun e => e.expertRole == ExpertRole.executor)).length := by
  rw [capacityRole, ← sum_map_indicator]
  refine congrArg List.sum (List.map_congr_left ?_)
  intro e he
  rw [expertCapOf]
  by_cases h : e.expertRole = ExpertRole.executor
  · rw [if_pos (by simp [h]), if_pos (by simp [h]), hmax e he h]
  · rw [if_neg (by simp [h]), if_neg (by simp [h])]

/-- A freshly provisioned state (no assignments, all tasks pending, distinct
identifiers, caps respected) is well-formed. -/
lemma SysWF_initial (s : BBState)
    (h1 : ExpertsWF s.experts)
    (h2 : (s.tasks.map (·.taskId)).Nodup)
    (h3 : ∀ t ∈ s.tasks, t.assignedTo = none)
    (h4 : ∀ t ∈ s.tasks, t.status = .pending) :
    SysWF s := by
  refine ⟨h1, h2, ?_, ?_⟩
  · intro t ht eid heq
    rw [h3 t ht] at heq
    exact absurd heq (by simp)
  · intro r
    have hactive : activeRole s r = 0 := by
      rw [activeRole,
        List.map_congr_left fun u hu => taskActiveFlag_pending r (h4 u hu)]
      simp
    rw [hactive]
    exact Nat.zero_le _

/-- C7: the default team configuration caps the roles at planner 1,
executor 3, evaluator 2; and over any operation sequence on a well-formed
team whose executor instances respect the default cap and handle one task
each, at most 3 tasks are in the `ASSIGNED` status at once — the remaining
executor tasks necessarily stay unassigned until capacity frees. -/
theorem default_caps_and_executor_bound :
    (defaultTeamConfiguration.maxPlannerInstances = 1 ∧
     defaultTeamConfiguration.maxExecutorInstances = 3 ∧
     defaultTeamConfiguration.maxEvaluatorInstances = 2) ∧
    ∀ (s : BBState) (ops : List BBOp),
      SysWF s →
      (s.experts.filter (fun e => e.expertRole == ExpertRole.executor)).length
        ≤ defaultTeamConfiguration.maxExecutorInstances →
      (∀ e ∈ s.experts, e.expertRole = .executor → e.maxConcurrentTasks = 1) →
      assignedRole (runOps s ops) .executor ≤ 3 := by
  refine ⟨⟨rfl, rfl, rfl⟩, ?_⟩
  intro s ops hwf hcapN hmax
  obtain ⟨⟨hnde, hbound⟩, -, -, hcount⟩ := SysWF_runOps s ops hwf
  calc assignedRole (runOps s ops) .executor
      ≤ activeRole (runOps s ops) .executor := assignedRole_le_activeRole _ _
    _ ≤ loadRole (runOps s ops).experts .executor := hcount _
    _ ≤ capacityRole (runOps s ops).experts .executor :=
        loadRole_le_capacityRole _ hbound _
    _ = capacityRole s.experts .executor := capacityRole_runOps s ops _
    _ = (s.experts.filter
          (fun e => e.expertRole == ExpertRole.executor)).length :=
        capacity_of_unit_executors s.experts hmax
    _ ≤ 3 := hcapN

/-- The scenario team: three single-task executors. -/
def scenarioExperts : List ExpertInstance :=
  [{ demoFree with instanceId := 1, maxConcurrentTasks := 1, createdAt := 0 },
   { demoFree with instanceId := 2, maxConcurrentTasks := 1, createdAt := 1 },
   { demoFree with instanceId := 3, maxConcurrentTasks := 1, createdAt := 2 }]

/-- The scenario queue: five pending high-priority executor tasks. -/
def scenarioTasks : List Task :=
  [{ demoTask with taskId := 1 }, { demoTask with taskId := 2 },
   { demoTask with taskId := 3 }, { demoTask with taskId := 4 },
   { demoTask with taskId := 5 }]

/-- The scenario state. -/
def scenarioState : BBState :=
  { experts := scenarioExperts, tasks := scenarioTasks }

/-- Auto-assignment invoked on all five scenario tasks. -/
def scenarioOps : List BBOp :=
  [.assignOp 1, .assignOp 2, .assignOp 3, .assignOp 4, .assignOp 5]

/-- Witness for C7 at the concrete end-to-end scenario: a default-cap team
with three unit-capacity executors and five pending executor tasks has at
most three tasks assigned after auto-assigning all five. -/
theorem default_caps_and_executor_bound_witness :
    assignedRole (runOps scenarioState scenarioOps) .executor ≤ 3 := by
  refine default_caps_and_executor_bound.2 scenarioState scenarioOps ?_ ?_ ?_
  · exact SysWF_initial scenarioState ⟨by decide, by decide⟩ (by decide)
      (by decide) (by decide)
  · decide
  · decide

/-! ## Theorems about failure handling and retries -/

/-- Within the retry bound, a failure reschedules the task: back to
assigned, retry count incremented, failure reason recorded. -/
lemma handleFailure_within (t : Task) (reason : String)
    (h : t.retryCount < t.maxRetries) :
    (handleFailure t reason).status = .assigned ∧
    (handleFailure t reason).retryCount = t.retryCount + 1 ∧
    (handleFailure t reason).failureReason = some reason ∧
    (handleFailure t reason).maxRetries = t.maxRetries ∧
    (handleFailure t reason).taskId = t.taskId := by
  rw [handleFailure]
  simp only [update_task_status, transitionAllowed, if_pos h]
  simp

/-- Beyond the retry bound, a failure is terminal: the task stays failed
with its reason recorded and an escalation flagged. -/
lemma handleFailure_beyond (t : Task) (reason : String)
    (h : ¬t.retryCount < t.maxRetries) :
    (handleFailure t reason).status = .failed ∧
    (handleFailure t reason).retryCount = t.retryCount ∧
    (handleFailure t reason).failureReason = some reason ∧
    (handleFailure t reason).maxRetries = t.maxRetries ∧
    (handleFailure t reason).escalated = true ∧
    (handleFailure t reason).taskId = t.taskId := by
  rw [handleFailure]
  simp only [update_task_status, transitionAllowed, if_neg h]
  simp

/-- Iterated failures decompose. -/
lemma failTimes_add (reason : String) (m n : Nat) (t : Task) :
    failTimes reason (m + n) t = failTimes reason n (failTimes reason m t) := by
  induction m generalizing t with
  | zero => rw [Nat.zero_add]; rfl
  | succ m ih =>
      have harith : m + 1 + n = (m + n) + 1 := by omega
      rw [harith]
      rw [show failTimes reason ((m + n) + 1) t
        = failTimes reason (m + n) (handleFailure t reason) from rfl]
      rw [ih (handleFailure t reason)]
      rfl

/-- Progress of iterated failures inside the retry budget: each failure is
rescheduled and the retry count advances one per failure. -/
lemma failTimes_progress (reason : String) :
    ∀ (n : Nat) (t : Task), t.retryCount + n ≤ t.maxRetries →
      (failTimes reason n t).retryCount = t.retryCount + n ∧
      (failTimes reason n t).maxRetries = t.maxRetries ∧
      (failTimes reason n t).taskId = t.taskId ∧
      (0 < n → (failTimes reason n t).status = .assigned ∧
        (failTimes reason n t).failureReason = some reason) := by
  intro n
  induction n with
  | zero =>
      intro t _
      exact ⟨rfl, rfl, rfl, fun h => absurd h (by omega)⟩
  | succ n ih =>
      intro t hn
      have hlt : t.retryCount < t.maxRetries := by omega
      obtain ⟨hst, hrc, hfr, hmr, hid⟩ := handleFailure_within t reason hlt
      rw [show failTimes reason (n + 1) t
        = failTimes reason n (handleFailure t reason) from rfl]
      have hrec := ih (handleFailure t reason) (by omega)
      obtain ⟨r1, r2, r3, r4⟩ := hrec
      refine ⟨by omega, by omega, by rw [r3, hid], ?_⟩
      intro _
      cases n with
      | zero => exact ⟨hst, hfr⟩
      | succ n2 => exact r4 (by omega)

/-- A terminally failed task at its retry bound stays failed under any
number of further failures. -/
lemma failTimes_stuck (reason : String) :
    ∀ (k : Nat) (t : Task), ¬t.retryCount < t.maxRetries →
      t.status = .failed →
      (failTimes reason k t).status = .failed ∧
      (failTimes reason k t).retryCount = t.retryCount := by
  intro k
  induction k with
  | zero => intro t _ hst; exact ⟨hst, rfl⟩
  | succ k ih =>
      intro t hb hst
      obtain ⟨h1, h2, h3, h4, h5, h6⟩ := handleFailure_beyond t reason hb
      rw [show failTimes reason (k + 1) t
        = failTimes reason k (handleFailure t reason) from rfl]
      obtain ⟨r1, r2⟩ := ih (handleFailure t reason) (by omega) h1
      exact ⟨r1, by omega⟩

/-- Retry counts never exceed the bound along any failure sequence. -/
lemma failTimes_retry_le (reason : String) :
    ∀ (n : Nat) (t : Task), t.retryCount ≤ t.maxRetries →
      (failTimes reason n t).retryCount ≤ (failTimes reason n t).maxRetries := by
  intro n
  induction n with
  | zero => intro t h; exact h
  | succ n ih =>
      intro t h
      rw [show failTimes reason (n + 1) t
        = failTimes reason n (handleFailure t reason) from rfl]
      apply ih
      by_cases hlt : t.retryCount < t.maxRetries
      · obtain ⟨-, h2, -, h4, -⟩ := handleFailure_within t reason hlt
        omega
      · obtain ⟨-, h2, -, h4, -, -⟩ := handleFailure_beyond t reason hlt
        omega

/-- C6: a task that starts with retry count zero and fails
`max_retries + 1` times ends terminally failed with its failure reason
populated and an escalation recorded; any further failures leave it failed,
the scheduler never auto-assigns it again (auto-assignment only touches
pending tasks), and its retry count never exceeds the bound along the
way. -/
theorem retry_bound_terminal (t : Task) (reason : String)
    (h0 : t.retryCount = 0) :
    (failTimes reason (t.maxRetries + 1) t).status = .failed ∧
    (failTimes reason (t.maxRetries + 1) t).failureReason = some reason ∧
    (failTimes reason (t.maxRetries + 1) t).escalated = true ∧
    (failTimes reason (t.maxRetries + 1) t).retryCount = t.maxRetries ∧
    (∀ k, (failTimes reason k
      (failTimes reason (t.maxRetries + 1) t)).status = .failed) ∧
    (∀ es, auto_assign_task
        ⟨es, [failTimes reason (t.maxRetries + 1) t]⟩
        (failTimes reason (t.maxRetries + 1) t).taskId
      = ⟨es, [failTimes reason (t.maxRetries + 1) t]⟩) ∧
    (∀ n, (failTimes reason n t).retryCount
      ≤ (failTimes reason n t).maxRetries) := by
  obtain ⟨p1, p2, p3, -⟩ :=
    failTimes_progress reason t.maxRetries t (by omega)
  set mid := failTimes reason t.maxRetries t with hmid
  have hsplit : failTimes reason (t.maxRetries + 1) t
      = handleFailure mid reason := by
    rw [failTimes_add reason t.maxRetries 1 t]
    rfl
  have hnb : ¬mid.retryCount < mid.maxRetries := by omega
  obtain ⟨q1, q2, q3, q4, q5, q6⟩ := handleFailure_beyond mid reason hnb
  rw [hsplit]
  refine ⟨q1, q3, q5, by omega, ?_, ?_, ?_⟩
  · intro k
    exact (failTimes_stuck reason k (handleFailure mid reason)
      (by omega) q1).1
  · intro es
    rw [auto_assign_task]
    have hfind : [handleFailure mid reason].find?
        (fun u => u.taskId == (handleFailure mid reason).taskId)
        = some (handleFailure mid reason) := by
      simp [List.find?]
    rw [hfind]
    dsimp only
    rw [if_neg (by rw [q1]; simp)]
  · intro n
    exact failTimes_retry_le reason n t (by omega)

/-- Witness for C6 at a concrete task with retry bound 2: after three
failures it is terminally failed, escalated, with reason recorded and retry
count 2, and a fourth failure changes none of that. -/
theorem retry_bound_terminal_witness :
    (failTimes "llm timeout" 3 { demoTask with maxRetries := 2 }).status
      = .failed ∧
    (failTimes "llm timeout" 3 { demoTask with maxRetries := 2 }).failureReason
      = some "llm timeout" ∧
    (failTimes "llm timeout" 3 { demoTask with maxRetries := 2 }).escalated
      = true ∧
    (failTimes "llm timeout" 3 { demoTask with maxRetries := 2 }).retryCount
      = 2 ∧
    (failTimes "llm timeout" 1
      (failTimes "llm timeout" 3 { demoTask with maxRetries := 2 })).status
      = .failed := by
  have h := retry_bound_terminal { demoTask with maxRetries := 2 }
    "llm timeout" rfl
  exact ⟨h.1, h.2.1, h.2.2.1, h.2.2.2.1, h.2.2.2.2.1 1⟩

/-! ## Theorems about dependency-cycle detection -/

/-- Every task on a hard-dependency cycle is a member of the batch and hard
depends on another task of the cycle. -/
lemma cycle_mem_and_succ {batch c : List Task} (hc : IsDepCycle batch c) :
    ∀ x ∈ c, x ∈ batch ∧ ∃ y ∈ c, y ∈ batch ∧ y.taskId ∈ hardDepIds x.dependencies := by
  obtain ⟨hpos, hedge⟩ := hc
  intro x hx
  obtain ⟨i, hi⟩ := List.mem_iff_get.1 hx
  obtain ⟨ha, hb, hd⟩ := hedge i
  subst hi
  refine ⟨ha, c.get ⟨(i.val + 1) % c.length, Nat.mod_lt _ i.pos⟩, ?_, hb, hd⟩
  exact List.get_mem c _ _

/-- Cycle members survive every round of the elimination loop. -/
lemma cycle_survives {batch c : List Task} (hc : IsDepCycle batch c) :
    ∀ (k : Nat) (g : List Task), (∀ x ∈ c, x ∈ g) →
      ∀ x ∈ c, x ∈ shrinkCycle k g := by
  intro k
  induction k with
  | zero => intro g hg x hx; exact hg x hx
  | succ k ih =>
      intro g hg x hx
      rw [shrinkCycle]
      refine ih (g.filter (hasHardDepIn g)) ?_ x hx
      intro z hz
      rw [List.mem_filter]
      refine ⟨hg z hz, ?_⟩
      obtain ⟨-, y, hyc, -, hyd⟩ := cycle_mem_and_succ hc z hz
      rw [hasHardDepIn, List.any_eq_true]
      refine ⟨y.taskId, hyd, ?_⟩
      rw [List.any_eq_true]
      exact ⟨y, hg y hyc, by simp⟩

/-- C5: creating a batch of tasks whose hard dependency references form a
cycle fails with `CyclicDependencyError` and persists nothing: the store is
returned unchanged, so no task of the attempted creation survives, even
partially. -/
theorem cyclic_creation_rejected (store batch c : List Task)
    (hc : IsDepCycle batch c) :
    create_tasks store batch = (store, some .cyclicDependencyError) := by
  have hx0 : c.get ⟨0, hc.1⟩ ∈ c := List.get_mem c _ _
  have hmem : ∀ x ∈ c, x ∈ batch := fun x hx => (cycle_mem_and_succ hc x hx).1
  have hsurv : c.get ⟨0, hc.1⟩ ∈ shrinkCycle batch.length batch :=
    cycle_survives hc batch.length batch hmem _ hx0
  have hdet : detect_cycle batch = true := by
    rw [detect_cycle, Bool.not_eq_true', List.isEmpty_eq_false_iff_exists_mem]
    exact ⟨_, hsurv⟩
  rw [create_tasks, if_pos hdet]

/-- Two concrete tasks that hard-depend on each other. -/
def cyclicTaskA : Task :=
  { demoTask with taskId := 10, dependencies := [⟨11, true⟩] }

/-- The second half of the concrete two-cycle. -/
def cyclicTaskB : Task :=
  { demoTask with taskId := 11, dependencies := [⟨10, true⟩] }

/-- Witness for C5 at the concrete A-to-B-to-A batch: creation fails with
`CyclicDependencyError` and the (empty) store persists unchanged. -/
theorem cyclic_creation_rejected_witness :
    create_tasks [] [cyclicTaskA, cyclicTaskB]
      = ([], some .cyclicDependencyError) := by
  refine cyclic_creation_rejected [] [cyclicTaskA, cyclicTaskB]
    [cyclicTaskA, cyclicTaskB] ⟨by decide, ?_⟩
  decide

end Mercatus
